import Mathlib

/-!
Verification of the RARSMS APRS-IS bridge connector (services/aprs-connector).

Go strings are modelled as lists of characters (`GoStr`); Go functions that
can panic return `Option`/`Except`; the HTTP record-store client is modelled
as an oracle of responses, and the side effects of a handler are collected
into an explicit list of `DbCall` events.  All definitions are translated
from the Go sources (`aprs.go`, `main.go`, `utils.go` = unnamed part_010).
-/

set_option autoImplicit false

namespace RARSMS

/-- Model of a Go string as the list of its runes. -/
abbrev GoStr := List Char

/-- The character U+007B (opening curly brace), written via its code point. -/
def lbrace : Char := Char.ofNat 123

/-- ASCII uppercasing of one rune, modelling strings.ToUpper on the
ASCII range (callsigns and packet fields in this code base are ASCII). -/
def asciiToUpper (c : Char) : Char :=
  if 97 ≤ c.toNat ∧ c.toNat ≤ 122 then Char.ofNat (c.toNat - 32) else c

/-- strings.ToUpper, rune by rune. -/
def toUpperStr (s : GoStr) : GoStr := s.map asciiToUpper

/-- Go unicode.IsSpace: the white-space runes recognised by strings.TrimSpace. -/
def isGoUnicodeSpace (c : Char) : Bool :=
  decide ((9 ≤ c.toNat ∧ c.toNat ≤ 13) ∨ c.toNat = 32 ∨
    c.toNat = 0x85 ∨ c.toNat = 0xA0 ∨ c.toNat = 0x1680 ∨
    (0x2000 ≤ c.toNat ∧ c.toNat ≤ 0x200A) ∨
    c.toNat = 0x2028 ∨ c.toNat = 0x2029 ∨
    c.toNat = 0x202F ∨ c.toNat = 0x205F ∨ c.toNat = 0x3000)

/-- strings.TrimSpace: drop Unicode white space from both ends. -/
def trimSpace (s : GoStr) : GoStr :=
  ((s.dropWhile isGoUnicodeSpace).reverse.dropWhile isGoUnicodeSpace).reverse

/-- sanitizeMessageContent (utils.go): keep runes ≥ 32 and tab, replace
LF and CR by a single space, drop every other control rune. -/
def sanitizeMessageContent : GoStr → GoStr
  | [] => []
  | c :: rest =>
    if 32 ≤ c.toNat ∨ c.toNat = 9 then c :: sanitizeMessageContent rest
    else if c.toNat = 10 ∨ c.toNat = 13 then ' ' :: sanitizeMessageContent rest
    else sanitizeMessageContent rest

/-- isValidMessageContent (utils.go): non-empty and free of control runes
other than tab, LF, CR. -/
def isValidMessageContent (content : GoStr) : Bool :=
  if content = [] then false
  else content.all fun c =>
    !(c.toNat < 32 && c.toNat != 9 && c.toNat != 10 && c.toNat != 13)

/-- truncateForAPRS (utils.go).  Its Go body slices `content[:maxLength-3]`;
a negative slice bound panics in Go, modelled here as `none`.  (The upper
slice bound cannot be exceeded: in the truncating branch
maxLength - 3 < len(content).) -/
def truncateForAPRS (content : GoStr) (maxLength : Int) : Option GoStr :=
  if (content.length : Int) ≤ maxLength then some content
  else if maxLength - 3 < 0 then none
  else some (content.take (maxLength - 3).toNat ++ "...".toList)

/-- Per-rune image of sanitizeMessageContent, used to state the
specification sentence about CR/LF and dropped control runes. -/
def sanitizeCharImage (c : Char) : List Char :=
  if 32 ≤ c.toNat ∨ c.toNat = 9 then [c]
  else if c.toNat = 10 ∨ c.toNat = 13 then [' ']
  else []

theorem sanitizeMessageContent_eq_flatMap (s : GoStr) :
    sanitizeMessageContent s = s.flatMap sanitizeCharImage := by
  induction s with
  | nil => rfl
  | cons c rest ih =>
    simp only [sanitizeMessageContent, List.flatMap_cons, sanitizeCharImage]
    split
    · simpa using ih
    · split
      · simpa using ih
      · simpa using ih

theorem sanitizeMessageContent_no_control (s : GoStr) :
    ∀ c ∈ sanitizeMessageContent s, 32 ≤ c.toNat ∨ c.toNat = 9 := by
  induction s with
  | nil => intro c hc; cases hc
  | cons a rest ih =>
    intro c hc
    simp only [sanitizeMessageContent] at hc
    split at hc
    · next h =>
      rw [List.mem_cons] at hc
      rcases hc with hc | hc
      · subst hc; exact h
      · exact ih c hc
    · split at hc
      · rw [List.mem_cons] at hc
        rcases hc with hc | hc
        · subst hc; left; decide
        · exact ih c hc
      · exact ih c hc

/-- C6: for every input string, the output of sanitizeMessageContent contains
no runes below 0x20 except tab (0x09); each CR and each LF in the input
becomes a single space in the output; every other sub-0x20 rune is dropped;
runes ≥ 0x20 and tabs pass through unchanged in order (the per-character
image being `sanitizeCharImage`). -/
theorem sanitizeMessageContent_spec (s : GoStr) :
    (∀ c ∈ sanitizeMessageContent s, 32 ≤ c.toNat ∨ c.toNat = 9) ∧
    sanitizeMessageContent s = s.flatMap sanitizeCharImage :=
  ⟨sanitizeMessageContent_no_control s, sanitizeMessageContent_eq_flatMap s⟩

/-- C10: sanitizeMessageContent is idempotent. -/
theorem sanitizeMessageContent_idempotent (s : GoStr) :
    sanitizeMessageContent (sanitizeMessageContent s) = sanitizeMessageContent s := by
  induction s with
  | nil => rfl
  | cons c rest ih =>
    simp only [sanitizeMessageContent]
    split
    · next h =>
      simp only [sanitizeMessageContent, h, if_pos, ih]
    · split
      · have hsp : 32 ≤ ' '.toNat ∨ ' '.toNat = 9 := by left; decide
        simp only [sanitizeMessageContent, hsp, if_pos, ih]
      · exact ih

/-- C5 (counterexample to the claim as stated): with limit 2 and the
4-character input "abcd" the Go code evaluates the slice content[:-1],
which panics, so no string at all is returned. -/
theorem truncateForAPRS_claim_counterexample :
    truncateForAPRS "abcd".toList 2 = none := by decide

/-- C5 (amended): for every limit ≥ 3, truncateForAPRS returns a string,
never longer than the limit; input of length ≤ limit is returned
unchanged; input longer than the limit yields a result ending in "...". -/
theorem truncateForAPRS_spec (content : GoStr) (maxLength : Int)
    (h3 : 3 ≤ maxLength) :
    ∃ r, truncateForAPRS content maxLength = some r ∧
      (r.length : Int) ≤ maxLength ∧
      ((content.length : Int) ≤ maxLength → r = content) ∧
      (maxLength < (content.length : Int) →
        ∃ p, r = p ++ "...".toList) := by
  unfold truncateForAPRS
  by_cases hle : (content.length : Int) ≤ maxLength
  · refine ⟨content, by simp [hle], hle, fun _ => rfl, fun hlt => absurd hle (not_le.mpr hlt)⟩
  · have hneg : ¬ maxLength - 3 < 0 := by omega
    refine ⟨content.take (maxLength - 3).toNat ++ "...".toList, by simp [hle, hneg], ?_, ?_, ?_⟩
    · have hlen : (content.take (maxLength - 3).toNat).length ≤ (maxLength - 3).toNat := by
        simp [List.length_take]
      have h3n : ((maxLength - 3).toNat : Int) = maxLength - 3 := by omega
      have : ("...".toList : List Char).length = 3 := by decide
      rw [List.length_append, this]
      omega
    · intro hc; exact absurd hc hle
    · intro _; exact ⟨content.take (maxLength - 3).toNat, rfl⟩

/-- Witness for truncateForAPRS_spec at limit 67 and a 100-character input. -/
theorem truncateForAPRS_spec_witness :
    ∃ r, truncateForAPRS (List.replicate 100 'a') 67 = some r ∧
      (r.length : Int) ≤ 67 ∧
      (((List.replicate 100 'a').length : Int) ≤ 67 → r = List.replicate 100 'a') ∧
      (67 < ((List.replicate 100 'a').length : Int) →
        ∃ p, r = p ++ "...".toList) :=
  truncateForAPRS_spec (List.replicate 100 'a') 67 (by decide)

/-! ## The message regex (aprs.go, messageRegex) -/

/-- Character class [A-Z0-9-] (groups 1 and 3 of messageRegex);
45 is the code point of the dash. -/
def isCallChar (c : Char) : Bool :=
  decide ((65 ≤ c.toNat ∧ c.toNat ≤ 90) ∨ (48 ≤ c.toNat ∧ c.toNat ≤ 57) ∨ c.toNat = 45)

/-- Character class [A-Za-z0-9] (group 5, the message id). -/
def isIdChar (c : Char) : Bool :=
  decide ((65 ≤ c.toNat ∧ c.toNat ≤ 90) ∨ (97 ≤ c.toNat ∧ c.toNat ≤ 122) ∨
    (48 ≤ c.toNat ∧ c.toNat ≤ 57))

/-- RE2 character class \s = [\t\n\f\r and space]. -/
def isRegexSpace (c : Char) : Bool :=
  decide (c.toNat = 9 ∨ c.toNat = 10 ∨ c.toNat = 12 ∨ c.toNat = 13 ∨ c.toNat = 32)

/-- Regex tail at a content split point: the optional greedy group
(brace then [A-Za-z0-9]+) followed by the end anchor, tried before the
empty alternative (which requires the end of the string at once). -/
def optIdEnd : GoStr → Option GoStr
  | [] => some []
  | c :: r =>
    if c = lbrace then
      if r ≠ [] ∧ r.all isIdChar then some r else none
    else none

/-- Lazy group `(.+?)` followed by `optIdEnd`; Go submatch semantics try
the shortest content first, and `.` does not match a newline.
`acc` is the content consumed so far. -/
def contentMatch (acc : GoStr) : GoStr → Option (GoStr × GoStr)
  | [] => none
  | c :: r =>
    if c = '\n' then none
    else
      match optIdEnd r with
      | some mid => some (acc ++ [c], mid)
      | none => contentMatch (acc ++ [c]) r

/-- `\s*:` then the content group.  The greedy space run is the maximal
one: no shorter run can be followed by the literal colon, because the
next character of a longer run is a space, never a colon. -/
def afterTo (s : GoStr) : Option (GoStr × GoStr) :=
  match s.dropWhile isRegexSpace with
  | c :: r => if c = ':' then contentMatch [] r else none
  | [] => none

/-- Group 3 `([A-Z0-9-]+)` then `afterTo`: greedy maximal class run; no
shorter run can be followed by `\s*:` since a class character is neither
a space nor a colon. -/
def matchTo (s : GoStr) : Option (GoStr × GoStr × GoStr) :=
  let toF := s.takeWhile isCallChar
  if toF = [] then none
  else
    match afterTo (s.drop toF.length) with
    | some (content, mid) => some (toF, content, mid)
    | none => none

/-- One position of the lazy `.*?::` scan: the rest of the pattern applied
when the current position starts with a double colon. -/
def delimHere (c : Char) (r : GoStr) : Option (GoStr × GoStr × GoStr) :=
  if c = ':' then
    match r with
    | c2 :: r2 => if c2 = ':' then matchTo r2 else none
    | [] => none
  else none

/-- Lazy `.*?::` then the rest of the pattern: try each occurrence of a
double colon from left to right (shortest `.*?` first); `.` does not
match a newline, so a newline before a successful position fails. -/
def scanDelim : GoStr → Option (GoStr × GoStr × GoStr)
  | [] => none
  | c :: r =>
    match delimHere c r with
    | some x => some x
    | none => if c = '\n' then none else scanDelim r

/-- `([^,]+),` then `scanDelim`: the greedy run of non-comma characters
must be the run up to the first comma (a shorter run is followed by a
non-comma character, so the literal comma fails there). -/
def afterGt (s : GoStr) : Option (GoStr × GoStr × GoStr) :=
  let p1 := s.takeWhile (fun c => c != ',')
  if p1 = [] then none
  else
    match s.drop p1.length with
    | c :: r => if c = ',' then scanDelim r else none
    | [] => none

/-- messageRegex (aprs.go line 37), anchored at both ends, compiled to a
deterministic matcher with Go regexp (leftmost-first) submatch semantics:
group 1 [A-Z0-9-]+ , literal >, group 2 [^,]+ (unused by the parser),
literal comma, lazy .*?, double colon, group 3 [A-Z0-9-]+, \s*, colon,
lazy group 4 .+?, optional brace plus group 5 [A-Za-z0-9]+, end.
Returns (group1, group3, group4, group5), group 5 empty when absent. -/
def messageRegexMatch (s : GoStr) : Option (GoStr × GoStr × GoStr × GoStr) :=
  let fromF := s.takeWhile isCallChar
  if fromF = [] then none
  else
    match s.drop fromF.length with
    | c :: r => if c = '>' then (afterGt r).map (fun x => (fromF, x.1, x.2.1, x.2.2)) else none
    | [] => none

/-- APRSMessage (aprs.go); the Timestamp field (wall-clock time) is not
modelled. -/
structure APRSMessage where
  fromCallsign : GoStr
  toCallsign : GoStr
  content : GoStr
  messageID : GoStr
  rawPacket : GoStr
deriving DecidableEq, Repr

/-- parseAPRSMessage (aprs.go): regex match, uppercase groups 1 and 3,
trim group 4, message id from group 5 (empty when the suffix is absent). -/
def parseAPRSMessage (rawPacket : GoStr) : Option APRSMessage :=
  match messageRegexMatch rawPacket with
  | none => none
  | some (f, t, c, mid) =>
    some { fromCallsign := toUpperStr f, toCallsign := toUpperStr t,
           content := trimSpace c, messageID := mid, rawPacket := rawPacket }

/-! ## Characterisation of the matcher on grammar-shaped lines -/

theorem takeWhile_append_eq (p : Char → Bool) (l1 l2 : GoStr) (c : Char)
    (h1 : ∀ a ∈ l1, p a = true) (hc : p c = false) :
    (l1 ++ c :: l2).takeWhile p = l1 := by
  induction l1 with
  | nil => simp [List.takeWhile_cons, hc]
  | cons a t ih =>
    have ha : p a = true := h1 a (by simp)
    simp only [List.cons_append, List.takeWhile_cons, ha, if_true]
    rw [ih (fun b hb => h1 b (by simp [hb]))]

theorem dropWhile_append_eq (p : Char → Bool) (l1 l2 : GoStr) (c : Char)
    (h1 : ∀ a ∈ l1, p a = true) (hc : p c = false) :
    (l1 ++ c :: l2).dropWhile p = c :: l2 := by
  induction l1 with
  | nil => simp [List.dropWhile_cons, hc]
  | cons a t ih =>
    have ha : p a = true := h1 a (by simp)
    simp only [List.cons_append, List.dropWhile_cons, ha, if_true]
    exact ih (fun b hb => h1 b (by simp [hb]))

theorem optIdEnd_none_of_head (c : Char) (r : GoStr) (h : c ≠ lbrace) :
    optIdEnd (c :: r) = none := by
  simp [optIdEnd, h]

theorem contentMatch_cons_done (acc : GoStr) (a : Char) (r mid : GoStr)
    (ha : a ≠ '\n') (hopt : optIdEnd r = some mid) :
    contentMatch acc (a :: r) = some (acc ++ [a], mid) := by
  simp [contentMatch, ha, hopt]

theorem contentMatch_cons_step (acc : GoStr) (a : Char) (r : GoStr)
    (ha : a ≠ '\n') (hopt : optIdEnd r = none) :
    contentMatch acc (a :: r) = contentMatch (acc ++ [a]) r := by
  simp [contentMatch, ha, hopt]

theorem contentMatch_run (content : GoStr) (suffix mid : GoStr) (acc : GoStr)
    (hne : content ≠ [])
    (hc : ∀ c ∈ content, c ≠ lbrace ∧ c ≠ '\n')
    (hs : optIdEnd suffix = some mid) :
    contentMatch acc (content ++ suffix) = some (acc ++ content, mid) := by
  induction content generalizing acc with
  | nil => exact absurd rfl hne
  | cons a t ih =>
    have ha := hc a (by simp)
    cases t with
    | nil =>
      rw [show (([a] : GoStr) ++ suffix) = a :: suffix from rfl]
      rw [contentMatch_cons_done acc a suffix mid ha.2 hs]
    | cons b t2 =>
      have hb := hc b (by simp)
      have hopt : optIdEnd ((b :: t2) ++ suffix) = none := by
        rw [show ((b :: t2 : GoStr) ++ suffix) = b :: (t2 ++ suffix) from rfl]
        exact optIdEnd_none_of_head b (t2 ++ suffix) hb.1
      rw [show ((a :: b :: t2 : GoStr) ++ suffix) = a :: ((b :: t2) ++ suffix) from rfl]
      rw [contentMatch_cons_step acc a ((b :: t2) ++ suffix) ha.2 hopt]
      rw [ih (acc ++ [a]) (by simp) (fun d hd => hc d (by simp [hd]))]
      simp

theorem afterTo_run (pad rest : GoStr)
    (hpad : ∀ c ∈ pad, isRegexSpace c = true) :
    afterTo (pad ++ ':' :: rest) = contentMatch [] rest := by
  unfold afterTo
  rw [dropWhile_append_eq isRegexSpace pad rest ':' hpad (by decide)]
  simp

theorem isCallChar_false_of_space (c : Char) (h : isRegexSpace c = true) :
    isCallChar c = false := by
  simp only [isRegexSpace, decide_eq_true_eq] at h
  simp only [isCallChar, decide_eq_false_iff_not]
  omega

theorem matchTo_run (toF pad rest content mid : GoStr)
    (hto1 : toF ≠ []) (hto2 : ∀ a ∈ toF, isCallChar a = true)
    (hpad : ∀ c ∈ pad, isRegexSpace c = true)
    (hcm : contentMatch [] rest = some (content, mid)) :
    matchTo (toF ++ (pad ++ ':' :: rest)) = some (toF, content, mid) := by
  unfold matchTo
  have htake : (toF ++ (pad ++ ':' :: rest)).takeWhile isCallChar = toF := by
    cases pad with
    | nil => exact takeWhile_append_eq isCallChar toF rest ':' hto2 (by decide)
    | cons d t =>
      have hd : isCallChar d = false := isCallChar_false_of_space d (hpad d (by simp))
      exact takeWhile_append_eq isCallChar toF (t ++ ':' :: rest) d hto2 hd
  simp only [htake]
  rw [if_neg hto1, List.drop_left]
  rw [afterTo_run pad rest hpad, hcm]

theorem scanDelim_run (p2 rest : GoStr) (x : GoStr × GoStr × GoStr)
    (hp2 : ∀ c ∈ p2, c ≠ ':' ∧ c ≠ '\n')
    (hm : matchTo rest = some x) :
    scanDelim (p2 ++ ':' :: ':' :: rest) = some x := by
  induction p2 with
  | nil =>
    rw [show (([] : GoStr) ++ ':' :: ':' :: rest) = ':' :: ':' :: rest from rfl]
    simp [scanDelim, delimHere, hm]
  | cons c t ih =>
    have hc := hp2 c (by simp)
    have hdh : delimHere c (t ++ ':' :: ':' :: rest) = none := by
      simp [delimHere, hc.1]
    rw [show ((c :: t : GoStr) ++ ':' :: ':' :: rest) = c :: (t ++ ':' :: ':' :: rest) from rfl]
    simp only [scanDelim, hdh, if_neg hc.2]
    exact ih (fun b hb => hp2 b (by simp [hb]))

theorem afterGt_run (p1 r : GoStr) (x : GoStr × GoStr × GoStr)
    (hp11 : p1 ≠ []) (hp12 : ∀ c ∈ p1, c ≠ ',')
    (hs : scanDelim r = some x) :
    afterGt (p1 ++ ',' :: r) = some x := by
  unfold afterGt
  have htake : (p1 ++ ',' :: r).takeWhile (fun c => c != ',') = p1 :=
    takeWhile_append_eq (fun c => c != ',') p1 r ','
      (fun a ha => by simp [hp12 a ha]) (by simp)
  simp only [htake]
  rw [if_neg hp11, List.drop_left]
  simp [hs]

theorem messageRegexMatch_run (fromF r : GoStr) (x : GoStr × GoStr × GoStr)
    (hf1 : fromF ≠ []) (hf2 : ∀ a ∈ fromF, isCallChar a = true)
    (ha : afterGt r = some x) :
    messageRegexMatch (fromF ++ '>' :: r) = some (fromF, x.1, x.2.1, x.2.2) := by
  unfold messageRegexMatch
  have htake : (fromF ++ '>' :: r).takeWhile isCallChar = fromF :=
    takeWhile_append_eq isCallChar fromF r '>' hf2 (by decide)
  simp only [htake]
  rw [if_neg hf1, List.drop_left]
  simp [ha]

theorem asciiToUpper_eq_self (c : Char) (h : isCallChar c = true) :
    asciiToUpper c = c := by
  simp only [isCallChar, decide_eq_true_eq] at h
  unfold asciiToUpper
  rw [if_neg (by omega)]

theorem toUpperStr_eq_self (l : GoStr) (h : ∀ c ∈ l, isCallChar c = true) :
    toUpperStr l = l := by
  induction l with
  | nil => rfl
  | cons a t ih =>
    simp only [toUpperStr, List.map_cons]
    rw [asciiToUpper_eq_self a (h a (by simp))]
    have := ih (fun b hb => h b (by simp [hb]))
    simp only [toUpperStr] at this
    rw [this]

/-- The optional message-id suffix of a message line: a brace followed by
the id when an id is supplied, nothing otherwise. -/
def msgIdSuffix (mid : GoStr) : GoStr := if mid = [] then [] else lbrace :: mid

/-- A line of the canonical APRS message addressing grammar
FROM>PATH::TO:content with the recipient field space-padded and an
optional brace-id suffix; PATH is split at its first comma into p1 and
the remainder p2. -/
def messageLine (fromF p1 p2 toF pad content mid : GoStr) : GoStr :=
  fromF ++ '>' :: (p1 ++ ',' :: (p2 ++ ':' :: ':' ::
    (toF ++ (pad ++ ':' :: (content ++ msgIdSuffix mid)))))

theorem optIdEnd_msgIdSuffix (mid : GoStr)
    (hmid : mid = [] ∨ (mid ≠ [] ∧ mid.all isIdChar = true)) :
    optIdEnd (msgIdSuffix mid) = some mid := by
  rcases hmid with h | ⟨h1, h2⟩
  · subst h; rfl
  · simp [msgIdSuffix, h1, optIdEnd, h2]

theorem messageRegexMatch_messageLine
    (fromF p1 p2 toF pad content mid : GoStr)
    (hf1 : fromF ≠ []) (hf2 : ∀ c ∈ fromF, isCallChar c = true)
    (hp11 : p1 ≠ []) (hp12 : ∀ c ∈ p1, c ≠ ',')
    (hp2 : ∀ c ∈ p2, c ≠ ':' ∧ c ≠ '\n')
    (hto1 : toF ≠ []) (hto2 : ∀ c ∈ toF, isCallChar c = true)
    (hpad : ∀ c ∈ pad, isRegexSpace c = true)
    (hc1 : content ≠ []) (hc2 : ∀ c ∈ content, c ≠ lbrace ∧ c ≠ '\n')
    (hmid : mid = [] ∨ (mid ≠ [] ∧ mid.all isIdChar = true)) :
    messageRegexMatch (messageLine fromF p1 p2 toF pad content mid) =
      some (fromF, toF, content, mid) := by
  have hopt := optIdEnd_msgIdSuffix mid hmid
  have hcm : contentMatch [] (content ++ msgIdSuffix mid) = some (content, mid) := by
    simpa using contentMatch_run content (msgIdSuffix mid) mid [] hc1 hc2 hopt
  have hmt := matchTo_run toF pad (content ++ msgIdSuffix mid) content mid hto1 hto2 hpad hcm
  have hsd := scanDelim_run p2 (toF ++ (pad ++ ':' :: (content ++ msgIdSuffix mid)))
    (toF, content, mid) hp2 hmt
  have hag := afterGt_run p1
    (p2 ++ ':' :: ':' :: (toF ++ (pad ++ ':' :: (content ++ msgIdSuffix mid))))
    (toF, content, mid) hp11 hp12 hsd
  have hmr := messageRegexMatch_run fromF
    (p1 ++ ',' :: (p2 ++ ':' :: ':' :: (toF ++ (pad ++ ':' :: (content ++ msgIdSuffix mid)))))
    (toF, content, mid) hf1 hf2 hag
  exact hmr

/-- The parser on a canonical message line (shared characterisation used
by the grammar and round-trip results). -/
theorem parseAPRSMessage_messageLine
    (fromF p1 p2 toF pad content mid : GoStr)
    (hf1 : fromF ≠ []) (hf2 : ∀ c ∈ fromF, isCallChar c = true)
    (hp11 : p1 ≠ []) (hp12 : ∀ c ∈ p1, c ≠ ',')
    (hp2 : ∀ c ∈ p2, c ≠ ':' ∧ c ≠ '\n')
    (hto1 : toF ≠ []) (hto2 : ∀ c ∈ toF, isCallChar c = true)
    (hpad : ∀ c ∈ pad, isRegexSpace c = true)
    (hc1 : content ≠ []) (hc2 : ∀ c ∈ content, c ≠ lbrace ∧ c ≠ '\n')
    (hmid : mid = [] ∨ (mid ≠ [] ∧ mid.all isIdChar = true)) :
    parseAPRSMessage (messageLine fromF p1 p2 toF pad content mid) =
      some { fromCallsign := fromF, toCallsign := toF,
             content := trimSpace content, messageID := mid,
             rawPacket := messageLine fromF p1 p2 toF pad content mid } := by
  unfold parseAPRSMessage
  rw [messageRegexMatch_messageLine fromF p1 p2 toF pad content mid
    hf1 hf2 hp11 hp12 hp2 hto1 hto2 hpad hc1 hc2 hmid]
  simp [toUpperStr_eq_self fromF hf2, toUpperStr_eq_self toF hto2]

/-! ## trimSpace lemmas -/

theorem length_dropWhile_le (p : Char → Bool) (l : GoStr) :
    (l.dropWhile p).length ≤ l.length := by
  induction l with
  | nil => simp
  | cons a t ih => rw [List.dropWhile_cons]; split <;> simp <;> omega

theorem dropWhile_eq_self_of_head (p : Char → Bool) (l : GoStr)
    (h : ∀ c, l.head? = some c → p c = false) :
    l.dropWhile p = l := by
  cases l with
  | nil => rfl
  | cons a t => simp [List.dropWhile_cons, h a rfl]

theorem head_not_p_of_dropWhile_eq_self (p : Char → Bool) (a : Char) (t : GoStr)
    (h : (a :: t).dropWhile p = a :: t) : p a = false := by
  cases hpa : p a
  · rfl
  · rw [List.dropWhile_cons, if_pos (by simp [hpa])] at h
    have hle := length_dropWhile_le p t
    have hlen := congrArg List.length h
    simp at hlen
    omega

theorem dropWhile_eq_self_of_length (p : Char → Bool) (l : GoStr)
    (h : (l.dropWhile p).length = l.length) : l.dropWhile p = l := by
  cases l with
  | nil => rfl
  | cons a t =>
    cases hpa : p a
    · rw [List.dropWhile_cons, if_neg (by simp [hpa])]
    · rw [List.dropWhile_cons, if_pos (by simp [hpa])] at h
      exfalso
      have hle := length_dropWhile_le p t
      simp at h
      omega

/-- A string equal to its own trimming has no white space at either end. -/
theorem trimSpace_self_facts (l : GoStr) (h : trimSpace l = l) :
    (∀ c, l.head? = some c → isGoUnicodeSpace c = false) ∧
    (∀ c, l.getLast? = some c → isGoUnicodeSpace c = false) := by
  unfold trimSpace at h
  have hlen1 := length_dropWhile_le isGoUnicodeSpace l
  have hlen2 := length_dropWhile_le isGoUnicodeSpace
    ((l.dropWhile isGoUnicodeSpace).reverse)
  have hlenh := congrArg List.length h
  simp only [List.length_reverse] at hlenh hlen2
  have hinlen : ((l.dropWhile isGoUnicodeSpace).length) = l.length := by omega
  have hin : l.dropWhile isGoUnicodeSpace = l :=
    dropWhile_eq_self_of_length isGoUnicodeSpace l hinlen
  rw [hin] at h
  have hout : l.reverse.dropWhile isGoUnicodeSpace = l.reverse := by
    have := congrArg List.reverse h
    simpa using this
  constructor
  · intro c hc
    cases l with
    | nil => cases hc
    | cons a t =>
      have : c = a := by simpa using hc.symm
      subst this
      exact head_not_p_of_dropWhile_eq_self isGoUnicodeSpace c t hin
  · intro c hc
    rw [← List.head?_reverse] at hc
    cases hrev : l.reverse with
    | nil => rw [hrev] at hc; cases hc
    | cons b s =>
      rw [hrev] at hc hout
      have : c = b := by simpa using hc.symm
      subst this
      exact head_not_p_of_dropWhile_eq_self isGoUnicodeSpace c s hout

/-- Trimming a line that ends in CRLF and has no white space at either
end of its body returns the body. -/
theorem trimSpace_append_crlf (l : GoStr) (h1 : l ≠ [])
    (hh : ∀ c, l.head? = some c → isGoUnicodeSpace c = false)
    (hl : ∀ c, l.getLast? = some c → isGoUnicodeSpace c = false) :
    trimSpace (l ++ ['\r', '\n']) = l := by
  unfold trimSpace
  have h2 : (l ++ ['\r', '\n']).dropWhile isGoUnicodeSpace = l ++ ['\r', '\n'] := by
    apply dropWhile_eq_self_of_head
    intro c hc
    rw [List.head?_append_of_ne_nil l h1] at hc
    exact hh c hc
  rw [h2, List.reverse_append]
  rw [show ((['\r', '\n'] : GoStr).reverse ++ l.reverse) = '\n' :: '\r' :: l.reverse from rfl]
  rw [List.dropWhile_cons, if_pos (by decide), List.dropWhile_cons, if_pos (by decide)]
  rw [dropWhile_eq_self_of_head isGoUnicodeSpace l.reverse
    (fun c hc => hl c (by rwa [List.head?_reverse] at hc))]
  exact List.reverse_reverse l

/-! ## C3: the message grammar claim -/

/-- C3 (counterexample to the claim as stated): the line
W4ABC>APRS::RARSMS   :Hello with id suffix 001 is of the canonical
grammar FROM>PATH::TO:content with id (PATH = APRS), yet parsing fails,
because the regex requires a comma after the first path element. -/
theorem parseAPRSMessage_claim_counterexample :
    parseAPRSMessage ("W4ABC>APRS::RARSMS   :Hello".toList ++ lbrace :: "001".toList)
      = none := by decide

/-- C3 (amended): for every line FROM>PATH::TO:content(optional id suffix)
in which PATH splits at its first comma as p1,p2 (so PATH must contain a
comma) with p2 free of colons and newlines, FROM and TO non-empty over
[A-Z0-9-], space padding after TO, content non-empty and free of braces
and newlines, and the id is absent or non-empty alphanumeric:
parseAPRSMessage succeeds and returns from = FROM uppercased,
to = TO uppercased with the padding trimmed, content = content trimmed,
and message id = the id (empty when the suffix is omitted). -/
theorem parseAPRSMessage_grammar (fromF p1 p2 toF pad content mid : GoStr)
    (hf1 : fromF ≠ []) (hf2 : ∀ c ∈ fromF, isCallChar c = true)
    (hp11 : p1 ≠ []) (hp12 : ∀ c ∈ p1, c ≠ ',')
    (hp2 : ∀ c ∈ p2, c ≠ ':' ∧ c ≠ '\n')
    (hto1 : toF ≠ []) (hto2 : ∀ c ∈ toF, isCallChar c = true)
    (hpad : ∀ c ∈ pad, c = ' ')
    (hc1 : content ≠ []) (hc2 : ∀ c ∈ content, c ≠ lbrace ∧ c ≠ '\n')
    (hmid : mid = [] ∨ (mid ≠ [] ∧ mid.all isIdChar = true)) :
    parseAPRSMessage (messageLine fromF p1 p2 toF pad content mid) =
      some { fromCallsign := toUpperStr fromF, toCallsign := toUpperStr toF,
             content := trimSpace content, messageID := mid,
             rawPacket := messageLine fromF p1 p2 toF pad content mid } := by
  have hpadr : ∀ c ∈ pad, isRegexSpace c = true := by
    intro c hc; rw [hpad c hc]; decide
  rw [parseAPRSMessage_messageLine fromF p1 p2 toF pad content mid
    hf1 hf2 hp11 hp12 hp2 hto1 hto2 hpadr hc1 hc2 hmid]
  rw [toUpperStr_eq_self fromF hf2, toUpperStr_eq_self toF hto2]

/-- Witness for parseAPRSMessage_grammar on the specification's
Scenario A line. -/
theorem parseAPRSMessage_grammar_witness :
    parseAPRSMessage (messageLine "W4ABC".toList "APRS".toList "TCPIP*".toList
        "RARSMS".toList "   ".toList "Meeting tonight at 7 PM".toList "001".toList) =
      some { fromCallsign := toUpperStr "W4ABC".toList,
             toCallsign := toUpperStr "RARSMS".toList,
             content := trimSpace "Meeting tonight at 7 PM".toList,
             messageID := "001".toList,
             rawPacket := messageLine "W4ABC".toList "APRS".toList "TCPIP*".toList
               "RARSMS".toList "   ".toList "Meeting tonight at 7 PM".toList "001".toList } :=
  parseAPRSMessage_grammar "W4ABC".toList "APRS".toList "TCPIP*".toList
    "RARSMS".toList "   ".toList "Meeting tonight at 7 PM".toList "001".toList
    (by decide) (by decide) (by decide) (by decide) (by decide) (by decide)
    (by decide) (by decide) (by decide) (by decide) (by decide)

/-! ## C4: the outbound round trip -/

/-- The packet line built by SendMessage (aprs.go): truncation of long
content to 64 characters plus an ellipsis, then
callsign>APRS,TCPIP*::to:content with the optional brace-id suffix and
a trailing CRLF. -/
def sendMessagePacket (callsign toCallsign content messageID : GoStr) : GoStr :=
  let content2 := if 67 < content.length then content.take 64 ++ "...".toList else content
  (callsign ++ '>' :: ("APRS".toList ++ ',' :: ("TCPIP*".toList ++ ':' :: ':' ::
    (toCallsign ++ ([] ++ ':' :: (content2 ++ msgIdSuffix messageID)))))) ++ ['\r', '\n']

/-- SendMessage (aprs.go): fails when not connected, otherwise writes
the packet line. -/
def SendMessage (connected : Bool) (callsign toCallsign content messageID : GoStr) :
    Option GoStr :=
  if connected then some (sendMessagePacket callsign toCallsign content messageID)
  else none

theorem getLast?_append_right (l1 l2 : GoStr) (h : l2 ≠ []) :
    (l1 ++ l2).getLast? = l2.getLast? := List.getLast?_append_of_ne_nil l1 h

theorem getLast?_cons_right (a : Char) (l : GoStr) (h : l ≠ []) :
    (a :: l).getLast? = l.getLast? := by
  rw [show (a :: l) = [a] ++ l from rfl]
  exact getLast?_append_right [a] l h

/-- The last element of a canonical message line is the last element of
content plus id suffix. -/
theorem getLast?_messageLine (fromF p1 p2 toF pad content mid : GoStr)
    (h : content ≠ []) :
    (messageLine fromF p1 p2 toF pad content mid).getLast? =
      (content ++ msgIdSuffix mid).getLast? := by
  have hx : content ++ msgIdSuffix mid ≠ [] := by
    cases content with
    | nil => exact absurd rfl h
    | cons a t => simp
  unfold messageLine
  rw [getLast?_append_right _ _ (by simp)]
  rw [getLast?_cons_right _ _ (by simp [hx])]
  rw [getLast?_append_right _ _ (by simp [hx])]
  rw [getLast?_cons_right _ _ (by simp [hx])]
  rw [getLast?_append_right _ _ (by simp [hx])]
  rw [getLast?_cons_right _ _ (by simp [hx])]
  rw [getLast?_cons_right _ _ (by simp [hx])]
  rw [getLast?_append_right _ _ (by simp [hx])]
  rw [getLast?_append_right _ _ (by simp [hx])]
  rw [getLast?_cons_right _ _ hx]

theorem isGoUnicodeSpace_false_of_callChar (c : Char) (h : isCallChar c = true) :
    isGoUnicodeSpace c = false := by
  simp only [isCallChar, decide_eq_true_eq] at h
  simp only [isGoUnicodeSpace, decide_eq_false_iff_not]
  omega

theorem isGoUnicodeSpace_false_of_idChar (c : Char) (h : isIdChar c = true) :
    isGoUnicodeSpace c = false := by
  simp only [isIdChar, decide_eq_true_eq] at h
  simp only [isGoUnicodeSpace, decide_eq_false_iff_not]
  omega

/-- C4 (counterexample to the claim as stated): recipient W4ABC, content
AB brace 1, empty message id.  The produced line parses back with
content AB and message id 1, not the supplied content and id: a brace
inside the content is re-read as an id separator. -/
theorem sendMessage_roundTrip_claim_counterexample :
    (parseAPRSMessage (trimSpace (sendMessagePacket "N0CALL".toList "W4ABC".toList
        ("AB".toList ++ [lbrace] ++ "1".toList) []))).map
      (fun m => (m.toCallsign, m.content, m.messageID)) =
      some ("W4ABC".toList, "AB".toList, "1".toList) := by decide

/-- C4 (amended): for a non-empty recipient and sender over [A-Z0-9-],
content non-empty, at most 67 characters, free of braces and newlines and
equal to its own trimming, and an id absent or non-empty alphanumeric,
parsing the line produced by SendMessage (as the listener sees it, after
TrimSpace) recovers the same recipient, content and message id, with the
bridge's own callsign as sender. -/
theorem sendMessage_roundTrip (own toF content mid : GoStr)
    (hown1 : own ≠ []) (hown2 : ∀ c ∈ own, isCallChar c = true)
    (hto1 : toF ≠ []) (hto2 : ∀ c ∈ toF, isCallChar c = true)
    (hc1 : content ≠ []) (hlen : content.length ≤ 67)
    (hc2 : ∀ c ∈ content, c ≠ lbrace ∧ c ≠ '\n')
    (htrim : trimSpace content = content)
    (hmid : mid = [] ∨ (mid ≠ [] ∧ mid.all isIdChar = true)) :
    parseAPRSMessage (trimSpace (sendMessagePacket own toF content mid)) =
      some { fromCallsign := own, toCallsign := toF,
             content := content, messageID := mid,
             rawPacket := messageLine own "APRS".toList "TCPIP*".toList toF [] content mid } := by
  have hcontent2 : (if 67 < content.length then content.take 64 ++ "...".toList else content)
      = content := by rw [if_neg (by omega)]
  have hbody : sendMessagePacket own toF content mid =
      messageLine own "APRS".toList "TCPIP*".toList toF [] content mid ++ ['\r', '\n'] := by
    unfold sendMessagePacket messageLine
    rw [hcontent2]
  have hfacts := trimSpace_self_facts content htrim
  have hline1 : messageLine own "APRS".toList "TCPIP*".toList toF [] content mid ≠ [] := by
    unfold messageLine
    cases own with
    | nil => exact absurd rfl hown1
    | cons a t => simp
  have hhead : ∀ c, (messageLine own "APRS".toList "TCPIP*".toList toF [] content mid).head?
      = some c → isGoUnicodeSpace c = false := by
    intro c hc
    unfold messageLine at hc
    rw [List.head?_append_of_ne_nil own hown1] at hc
    apply isGoUnicodeSpace_false_of_callChar
    cases own with
    | nil => exact absurd rfl hown1
    | cons a t =>
      have : c = a := by simpa using hc.symm
      subst this
      exact hown2 c (by simp)
  have hlast : ∀ c, (messageLine own "APRS".toList "TCPIP*".toList toF [] content mid).getLast?
      = some c → isGoUnicodeSpace c = false := by
    intro c hc
    rw [getLast?_messageLine own "APRS".toList "TCPIP*".toList toF [] content mid hc1] at hc
    rcases hmid with hmnil | ⟨hm1, hm2⟩
    · rw [hmnil] at hc
      rw [show msgIdSuffix ([] : GoStr) = [] from rfl, List.append_nil] at hc
      exact hfacts.2 c hc
    · rw [show msgIdSuffix mid = lbrace :: mid from by simp [msgIdSuffix, hm1]] at hc
      rw [getLast?_append_right _ _ (by simp)] at hc
      rw [getLast?_cons_right _ _ hm1] at hc
      apply isGoUnicodeSpace_false_of_idChar
      have hmem : c ∈ mid := List.mem_of_mem_getLast? hc
      exact List.all_eq_true.mp hm2 c hmem
  have htrimline := trimSpace_append_crlf
    (messageLine own "APRS".toList "TCPIP*".toList toF [] content mid) hline1 hhead hlast
  rw [hbody, htrimline]
  rw [parseAPRSMessage_messageLine own "APRS".toList "TCPIP*".toList toF [] content mid
    hown1 hown2 (by decide) (by decide) (by decide) hto1 hto2 (by simp) hc1 hc2
    (by rcases hmid with hmnil | ⟨hm1, hm2⟩; exact Or.inl hmnil; exact Or.inr ⟨hm1, hm2⟩)]
  rw [htrim]

/-- Witness for sendMessage_roundTrip. -/
theorem sendMessage_roundTrip_witness :
    parseAPRSMessage (trimSpace (sendMessagePacket "N0CALL".toList "W4ABC".toList
        "Hello from RARSMS".toList "7".toList)) =
      some { fromCallsign := "N0CALL".toList, toCallsign := "W4ABC".toList,
             content := "Hello from RARSMS".toList, messageID := "7".toList,
             rawPacket := messageLine "N0CALL".toList "APRS".toList "TCPIP*".toList
               "W4ABC".toList [] "Hello from RARSMS".toList "7".toList } :=
  sendMessage_roundTrip "N0CALL".toList "W4ABC".toList "Hello from RARSMS".toList "7".toList
    (by decide) (by decide) (by decide) (by decide) (by decide) (by decide)
    (by decide) (by decide) (by decide)

/-! ## The record-store client and the side-effect model (aprs.go with
database.go modelled as a response oracle) -/

/-- An opaque Go error value. -/
inductive GoError
  | err
deriving DecidableEq, Repr

/-- A Go runtime panic relevant to this code base. -/
inductive GoPanic
  | closeOfClosedChannel
deriving DecidableEq, Repr

/-- The responses of the record store (database.go is a thin HTTP client;
its results are free inputs of the model) for the calls one packet
handler makes. -/
structure DbOracle where
  isAuthorizedMemberResult : Except GoError Bool
  getUserIDResult : Except GoError GoStr
  createMessageResult : Option GoError
  createAPRSPacketResult : Option GoError
  createOrUpdateConversationResult : Option GoError
  logEventResult : Option GoError
deriving Repr

/-- One observable call made by the connector: record-store reads and
writes, and writes to the TCP connection. -/
inductive DbCall
  | createAPRSPacket (raw : GoStr) (packetType : GoStr) (fromTo : Option (GoStr × GoStr))
  | isAuthorizedMember (callsign : GoStr)
  | getUserIDByCallsign (callsign : GoStr)
  | createMessage (correlationID : GoStr) (fromCallsign : GoStr) (content : GoStr)
      (user : Option GoStr)
  | createOrUpdateConversation (correlationID : GoStr) (userID : GoStr) (subject : GoStr)
  | logEvent (level : GoStr) (service : GoStr) (eventType : GoStr) (correlationID : GoStr)
  | connWrite (line : GoStr)
  | updateSystemStatus (service : GoStr) (status : GoStr)
deriving DecidableEq, Repr

/-- The connection-relevant state of APRSClient (aprs.go): the connected
flag, whether the stop channel has been closed, whether a socket was
ever dialled (conn non-nil), and the configured callsign. -/
structure ClientState where
  connected : Bool
  stopChannelClosed : Bool
  hasConn : Bool
  callsign : GoStr
deriving DecidableEq, Repr

/-- NewAPRSClient (aprs.go): fresh client, open stop channel, no socket. -/
def NewAPRSClient (callsign : GoStr) : ClientState :=
  { connected := false, stopChannelClosed := false, hasConn := false, callsign := callsign }

/-- Disconnect (aprs.go): closes the stop channel, closes the socket when
present, clears the connected flag and writes an offline status.
Closing an already-closed Go channel panics, modelled as the error case. -/
def Disconnect (st : ClientState) : Except GoPanic (ClientState × List DbCall) :=
  if st.stopChannelClosed then Except.error GoPanic.closeOfClosedChannel
  else Except.ok ({ st with stopChannelClosed := true, connected := false },
    [DbCall.updateSystemStatus "aprs-connector".toList "offline".toList])

/-- The ack packet line written by sendACK (aprs.go). -/
def ackPacket (callsign toCallsign messageID : GoStr) : GoStr :=
  (callsign ++ '>' :: ("APRS,TCPIP*".toList ++ ':' :: ':' ::
    (toCallsign ++ ':' :: ("ack".toList ++ messageID)))) ++ ['\r', '\n']

/-- sendACK (aprs.go): error when not connected, otherwise one write of
the ack packet (socket write errors are not modelled). -/
def sendACK (st : ClientState) (toCallsign messageID : GoStr) :
    List DbCall × Option GoError :=
  if st.connected then
    ([DbCall.connWrite (ackPacket st.callsign toCallsign messageID)], none)
  else ([], some GoError.err)

/-- strings.Contains(raw, a double colon). -/
def containsDoubleColon : GoStr → Bool
  | ':' :: ':' :: _ => true
  | _ :: r => containsDoubleColon r
  | [] => false

/-- The packet_type field stored by storeRawPacket (aprs.go). -/
def rawPacketType (raw : GoStr) : GoStr :=
  if containsDoubleColon raw then "message".toList else "other".toList

/-- The indexed callsigns stored by storeRawPacket when the packet
contains the addressing delimiter and the message regex matches. -/
def rawPacketFromTo (raw : GoStr) : Option (GoStr × GoStr) :=
  if containsDoubleColon raw then
    (messageRegexMatch raw).map (fun x => (toUpperStr x.1, toUpperStr x.2.1))
  else none

/-- storeRawPacket (aprs.go): exactly one CreateAPRSPacket call. -/
def storeRawPacket (raw : GoStr) (o : DbOracle) : List DbCall × Option GoError :=
  ([DbCall.createAPRSPacket raw (rawPacketType raw) (rawPacketFromTo raw)],
   o.createAPRSPacketResult)

/-- storeMessage (aprs.go).  generateCorrelationID (utils.go) derives a
fresh id from the wall clock and a random uuid; that generated value
enters the model as freshCid.  A user-id lookup failure is only logged;
a CreateMessage failure aborts with an error; conversation and log
failures are only logged. -/
def storeMessage (msg : APRSMessage) (freshCid : GoStr) (o : DbOracle) :
    List DbCall × Option GoError :=
  let userID : GoStr := match o.getUserIDResult with
    | Except.ok uid => uid
    | Except.error _ => []
  let userField : Option GoStr := match o.getUserIDResult with
    | Except.ok uid => if uid ≠ [] then some uid else none
    | Except.error _ => none
  let calls1 := [DbCall.getUserIDByCallsign msg.fromCallsign,
    DbCall.createMessage freshCid msg.fromCallsign msg.content userField]
  match o.createMessageResult with
  | some e => (calls1, some e)
  | none =>
    (calls1 ++ [DbCall.createOrUpdateConversation freshCid userID msg.content,
      DbCall.logEvent "info".toList "aprs".toList "message".toList freshCid],
     none)

/-- handleAPRSPacket (aprs.go): audit store, comment skip, parse,
addressee check, authorization, unauthorized handling (ack plus audit
log), or message storage plus ack. -/
def handleAPRSPacket (st : ClientState) (rawPacket freshCid : GoStr) (o : DbOracle) :
    List DbCall × Option GoError :=
  let calls0 := (storeRawPacket rawPacket o).1
  if rawPacket.head? = some '#' then (calls0, none)
  else
    match parseAPRSMessage rawPacket with
    | none => (calls0, none)
    | some message =>
      if toUpperStr message.toCallsign ≠ toUpperStr st.callsign then (calls0, none)
      else
        let calls1 := calls0 ++ [DbCall.isAuthorizedMember message.fromCallsign]
        match o.isAuthorizedMemberResult with
        | Except.error e => (calls1, some e)
        | Except.ok false =>
          let ackCalls := if message.messageID ≠ [] then
            (sendACK st message.fromCallsign message.messageID).1 else []
          (calls1 ++ ackCalls ++
            [DbCall.logEvent "warn".toList "aprs".toList "auth".toList []], none)
        | Except.ok true =>
          let sm := storeMessage message freshCid o
          match sm.2 with
          | some e => (calls1 ++ sm.1, some e)
          | none =>
            let ackCalls := if message.messageID ≠ [] then
              (sendACK st message.fromCallsign message.messageID).1 else []
            (calls1 ++ sm.1 ++ ackCalls, none)

/-- Call classifiers used to count persisted entities. -/
def isCreateAPRSPacketCall : DbCall → Bool
  | DbCall.createAPRSPacket _ _ _ => true
  | _ => false

def isCreateMessageCall : DbCall → Bool
  | DbCall.createMessage _ _ _ _ => true
  | _ => false

def isLogEventCall : DbCall → Bool
  | DbCall.logEvent _ _ _ _ => true
  | _ => false

def isConnWriteCall : DbCall → Bool
  | DbCall.connWrite _ => true
  | _ => false

/-- Correlation ids carried by the message-entity writes of a call list. -/
def createMessageCids : List DbCall → List GoStr
  | [] => []
  | DbCall.createMessage cid _ _ _ :: r => cid :: createMessageCids r
  | _ :: r => createMessageCids r

/-- Correlation ids carried by the conversation create-or-updates. -/
def conversationCids : List DbCall → List GoStr
  | [] => []
  | DbCall.createOrUpdateConversation cid _ _ :: r => cid :: conversationCids r
  | _ :: r => conversationCids r

/-- An oracle whose every call succeeds. -/
def oracleAllOk : DbOracle :=
  { isAuthorizedMemberResult := Except.ok true, getUserIDResult := Except.ok [],
    createMessageResult := none, createAPRSPacketResult := none,
    createOrUpdateConversationResult := none, logEventResult := none }

/-! ## C1: Disconnect is not idempotent (double channel close) -/

/-- C1 (the code violates the claim): on a fresh, never-connected client
the first Disconnect succeeds, but a second Disconnect panics, because
Disconnect unconditionally closes stopChannel and closing an
already-closed Go channel panics. -/
theorem disconnect_twice_panics :
    ∃ st1 calls, Disconnect (NewAPRSClient "N0CALL".toList) = Except.ok (st1, calls) ∧
      Disconnect st1 = Except.error GoPanic.closeOfClosedChannel := by
  refine ⟨_, _, rfl, rfl⟩

/-! ## C2: comment lines -/

/-- C2 (counterexample to the claim as stated): handling the server
comment line from Scenario C stores one aprs_packets audit record — the
storeRawPacket call precedes the comment check — contradicting
"no packet record of any type is stored". -/
theorem handleAPRSPacket_comment_claim_counterexample :
    ((handleAPRSPacket (NewAPRSClient "RARSMS".toList)
        "# logresp RARSMS verified".toList [] oracleAllOk).1.countP
      isCreateAPRSPacketCall) = 1 := by decide

/-- C2 (amended): for every line beginning with '#', handling returns
without error, no message entity is persisted and nothing else happens —
except that exactly one raw-packet audit record is stored, because the
audit write precedes the comment check. -/
theorem handleAPRSPacket_comment (st : ClientState) (raw freshCid : GoStr) (o : DbOracle)
    (h : raw.head? = some '#') :
    handleAPRSPacket st raw freshCid o =
      ([DbCall.createAPRSPacket raw (rawPacketType raw) (rawPacketFromTo raw)], none) := by
  unfold handleAPRSPacket storeRawPacket
  simp [h]

/-- Witness for handleAPRSPacket_comment on the Scenario C line. -/
theorem handleAPRSPacket_comment_witness :
    handleAPRSPacket (NewAPRSClient "RARSMS".toList)
        "# logresp RARSMS verified".toList [] oracleAllOk =
      ([DbCall.createAPRSPacket "# logresp RARSMS verified".toList
          (rawPacketType "# logresp RARSMS verified".toList)
          (rawPacketFromTo "# logresp RARSMS verified".toList)], none) :=
  handleAPRSPacket_comment (NewAPRSClient "RARSMS".toList)
    "# logresp RARSMS verified".toList [] oracleAllOk (by decide)

/-! ## C7: unauthorized senders -/

theorem parse_head_not_comment (raw : GoStr) (msg : APRSMessage)
    (h : parseAPRSMessage raw = some msg) : raw.head? ≠ some '#' := by
  intro hc
  cases raw with
  | nil => cases hc
  | cons a t =>
    have ha : a = '#' := by simpa using hc
    subst ha
    have hcc : isCallChar '#' = false := by decide
    unfold parseAPRSMessage messageRegexMatch at h
    rw [List.takeWhile_cons] at h
    simp [hcc] at h

/-- C7: for every parsed inbound message addressed to the bridge's own
callsign whose sender authorization returns false without error, on a
connected session: handling returns no error, no message entity is
persisted, exactly one log entry is written and it is the unauthorized
audit entry, and an ack write is emitted exactly when the message
carried a non-empty message id. -/
theorem handleAPRSPacket_unauthorized (st : ClientState) (raw freshCid : GoStr)
    (o : DbOracle) (msg : APRSMessage)
    (hparse : parseAPRSMessage raw = some msg)
    (haddr : toUpperStr msg.toCallsign = toUpperStr st.callsign)
    (hauth : o.isAuthorizedMemberResult = Except.ok false)
    (hconn : st.connected = true) :
    (handleAPRSPacket st raw freshCid o).2 = none ∧
    (handleAPRSPacket st raw freshCid o).1.countP isCreateMessageCall = 0 ∧
    (handleAPRSPacket st raw freshCid o).1.filter isLogEventCall =
      [DbCall.logEvent "warn".toList "aprs".toList "auth".toList []] ∧
    (handleAPRSPacket st raw freshCid o).1.filter isConnWriteCall =
      (if msg.messageID ≠ [] then
        [DbCall.connWrite (ackPacket st.callsign msg.fromCallsign msg.messageID)]
       else []) := by
  have hcomment := parse_head_not_comment raw msg hparse
  unfold handleAPRSPacket
  rw [if_neg hcomment, hparse]
  simp only [if_neg (not_not.mpr haddr), hauth]
  unfold sendACK storeRawPacket
  rw [hconn]
  by_cases hmid : msg.messageID = []
  · simp [hmid, List.countP_append, List.countP_cons, List.filter_append,
      isCreateMessageCall, isLogEventCall, isConnWriteCall, isCreateAPRSPacketCall,
      List.countP, List.filter]
    rfl
  · simp [hmid, List.countP_append, List.countP_cons, List.filter_append,
      isCreateMessageCall, isLogEventCall, isConnWriteCall, isCreateAPRSPacketCall,
      List.countP, List.filter]
    rfl

/-- The client state and line of the specification's Scenario B, used as
the concrete witness input for the unauthorized path. -/
def scenarioBState : ClientState :=
  { connected := true, stopChannelClosed := false, hasConn := true,
    callsign := "RARSMS".toList }

def scenarioBLine : GoStr :=
  messageLine "W4ABC".toList "APRS".toList "TCPIP*".toList "RARSMS".toList
    "   ".toList "Meeting tonight at 7 PM".toList "001".toList

def scenarioBOracle : DbOracle :=
  { oracleAllOk with isAuthorizedMemberResult := Except.ok false }

def scenarioBMessage : APRSMessage :=
  { fromCallsign := "W4ABC".toList, toCallsign := "RARSMS".toList,
    content := "Meeting tonight at 7 PM".toList, messageID := "001".toList,
    rawPacket := scenarioBLine }

/-- Witness for handleAPRSPacket_unauthorized on the Scenario B line. -/
theorem handleAPRSPacket_unauthorized_witness :
    (handleAPRSPacket scenarioBState scenarioBLine "cid1".toList scenarioBOracle).2 = none ∧
    (handleAPRSPacket scenarioBState scenarioBLine "cid1".toList
      scenarioBOracle).1.countP isCreateMessageCall = 0 ∧
    (handleAPRSPacket scenarioBState scenarioBLine "cid1".toList
      scenarioBOracle).1.filter isLogEventCall =
      [DbCall.logEvent "warn".toList "aprs".toList "auth".toList []] ∧
    (handleAPRSPacket scenarioBState scenarioBLine "cid1".toList
      scenarioBOracle).1.filter isConnWriteCall =
      (if scenarioBMessage.messageID ≠ [] then
        [DbCall.connWrite (ackPacket scenarioBState.callsign
          scenarioBMessage.fromCallsign scenarioBMessage.messageID)]
       else []) :=
  handleAPRSPacket_unauthorized scenarioBState scenarioBLine "cid1".toList
    scenarioBOracle scenarioBMessage (by decide) (by decide) rfl rfl

/-! ## C8: the message/conversation correlation invariant -/

/-- C8: when the message store succeeds, storeMessage finishes without
error, issues exactly one message-entity write and exactly one
conversation create-or-update, and both carry the freshly generated
correlation id. -/
theorem storeMessage_invariant (msg : APRSMessage) (freshCid : GoStr) (o : DbOracle)
    (h : o.createMessageResult = none) :
    (storeMessage msg freshCid o).2 = none ∧
    createMessageCids (storeMessage msg freshCid o).1 = [freshCid] ∧
    conversationCids (storeMessage msg freshCid o).1 = [freshCid] := by
  unfold storeMessage
  rw [h]
  cases hg : o.getUserIDResult with
  | ok uid => simp [createMessageCids, conversationCids]
  | error e => simp [createMessageCids, conversationCids]

/-- Witness for storeMessage_invariant. -/
theorem storeMessage_invariant_witness :
    (storeMessage scenarioBMessage "cid2".toList oracleAllOk).2 = none ∧
    createMessageCids (storeMessage scenarioBMessage "cid2".toList oracleAllOk).1 =
      ["cid2".toList] ∧
    conversationCids (storeMessage scenarioBMessage "cid2".toList oracleAllOk).1 =
      ["cid2".toList] :=
  storeMessage_invariant scenarioBMessage "cid2".toList oracleAllOk rfl

/-! ## C9: the retry/backoff supervisor (utils.go retryWithBackoff and
main.go runService) -/

/-- The body of retryWithBackoff's for loop (utils.go): i is the loop
index, delay the current backoff; the sleep before a retry is recorded.
When the loop exhausts maxRetries attempts the last error is returned
wrapped (for maxRetries = 0 the Go code wraps a nil error; the model
returns the opaque error in that case too). -/
def retryLoop (attempts : Nat → Option GoError) (maxRetries i delay : Nat)
    (sleeps : List Nat) : Option GoError × List Nat :=
  if i < maxRetries then
    match attempts i with
    | none => (none, sleeps)
    | some e =>
      if i < maxRetries - 1 then
        retryLoop attempts maxRetries (i + 1) (delay * 2) (sleeps ++ [delay])
      else (some e, sleeps)
  else (some GoError.err, sleeps)
  termination_by maxRetries - i

/-- retryWithBackoff (utils.go): run the attempts with exponential
backoff, returning the final status and the list of sleeps performed. -/
def retryWithBackoff (attempts : Nat → Option GoError) (maxRetries initialDelay : Nat) :
    Option GoError × List Nat :=
  retryLoop attempts maxRetries 0 initialDelay []

/-- The externally visible actions of one runService iteration. -/
inductive SupervisorStep
  | updateStatusError
  | waitReconnect
  | startHeartbeat
  | listen
deriving DecidableEq, Repr

/-- One iteration of runService's reconnection loop (main.go): Connect is
retried via retryWithBackoff with 5 attempts and a 5 second initial
delay; on success the heartbeat starts and Listen() runs; on exhaustion
an error status is recorded and the loop waits before reconnecting. -/
def runServiceCycle (connectResults : Nat → Option GoError) :
    (Option GoError × List Nat) × List SupervisorStep :=
  let r := retryWithBackoff connectResults 5 5
  match r.1 with
  | some _ => (r, [SupervisorStep.updateStatusError, SupervisorStep.waitReconnect])
  | none => (r, [SupervisorStep.startHeartbeat, SupervisorStep.listen])

/-- C9: when the first three Connect attempts fail and the fourth
succeeds, the supervisor sleeps 5 seconds before attempt 2, 10 before
attempt 3 and 20 before attempt 4 — strictly increasing, each double the
previous, starting from the initial delay — the retry returns no error,
and the supervisor proceeds to the heartbeat and then Listen. -/
theorem runService_three_failures_then_success (connectResults : Nat → Option GoError)
    (h0 : connectResults 0 = some GoError.err)
    (h1 : connectResults 1 = some GoError.err)
    (h2 : connectResults 2 = some GoError.err)
    (h3 : connectResults 3 = none) :
    runServiceCycle connectResults =
      ((none, [5, 10, 20]), [SupervisorStep.startHeartbeat, SupervisorStep.listen]) ∧
    (5 : Nat) < 10 ∧ (10 : Nat) < 20 := by
  refine ⟨?_, by omega, by omega⟩
  unfold runServiceCycle retryWithBackoff
  simp [retryLoop, h0, h1, h2, h3]

/-- Witness for runService_three_failures_then_success. -/
theorem runService_three_failures_then_success_witness :
    runServiceCycle (fun i => if i < 3 then some GoError.err else none) =
      ((none, [5, 10, 20]), [SupervisorStep.startHeartbeat, SupervisorStep.listen]) ∧
    (5 : Nat) < 10 ∧ (10 : Nat) < 20 :=
  runService_three_failures_then_success (fun i => if i < 3 then some GoError.err else none)
    rfl rfl rfl rfl

end RARSMS
